import Mathlib

/-!
Verification of the cbang HTTP `Request` / `Connection` layer
(`src/unnamed/part_000` = `Request.cpp`, `src/src/cbang/event/Connection.cpp`)
against its natural-language specification.

The C++ code is shallowly embedded: pure parsing routines become Lean
functions over `String` / `List Char`; `double` quality values become `ℚ`
(the inputs of interest are short decimal literals, on which IEEE doubles
are exact enough that comparisons agree with exact rational arithmetic);
the mutable `Request` response state becomes explicit state passing with
`Except` for thrown exceptions, and calls into the libevent transport are
recorded as an explicit list of transport operations.
-/

/-- Type `Request::compression_t` from `Request.h` / `Request.cpp`. -/
inductive compression_t where
  | COMPRESS_NONE
  | COMPRESS_ZLIB
  | COMPRESS_GZIP
  | COMPRESS_BZIP2
  | COMPRESS_AUTO
  deriving DecidableEq, Repr

/-- Lower-casing of a single ASCII character, as C `tolower` behaves on the
header bytes involved here. -/
def charToLower (c : Char) : Char :=
  if 'A' ≤ c ∧ c ≤ 'Z' then Char.ofNat (c.toNat + 32) else c

/-- Modelled from the spec: `String::toLower` (cbang string utility, not among
the provided sources) lower-cases every character (§4.3 "lower-case the
name"). -/
def strToLower (s : String) : String := String.mk (s.data.map charToLower)

def tokenizeAux (delims : List Char) : List Char → List Char → List String
  | [], acc => if acc = [] then [] else [String.mk acc.reverse]
  | c :: cs, acc =>
    if c ∈ delims then
      if acc = [] then tokenizeAux delims cs []
      else String.mk acc.reverse :: tokenizeAux delims cs []
    else tokenizeAux delims cs (c :: acc)

/-- Modelled from the spec: `String::tokenize` (cbang string utility, not
among the provided sources) splits a string on any of the delimiter
characters, returning the nonempty runs between delimiters in order
(§4.3 "tokenize on `,`/whitespace"). -/
def tokenize (s : String) (delims : List Char) : List String :=
  tokenizeAux delims s.data []

def digitsVal (cs : List Char) : Nat :=
  cs.foldl (fun a c => 10 * a + (c.toNat - 48)) 0

/-- The fractional case of `parseDouble`: integer part `ip`, fraction `fp`,
with value `ip + fp / 10 ^ |fp|`, written as one exact fraction. -/
def parseFrac (ip fp : List Char) : ℚ :=
  if fp.all Char.isDigit && !(ip.isEmpty && fp.isEmpty) then
    mkRat (digitsVal ip * 10 ^ fp.length + digitsVal fp) (10 ^ fp.length)
  else 1

/-- Modelled from the spec: `String::parseDouble` (cbang string utility, not
among the provided sources) parses a plain decimal number `digits[.digits]`;
per §7 "an unparseable quality value defaults to weight 1". -/
def parseDouble (s : String) : ℚ :=
  match s.data.dropWhile Char.isDigit with
  | [] => if s.data.takeWhile Char.isDigit = [] then 1
          else (digitsVal (s.data.takeWhile Char.isDigit) : ℚ)
  | '.' :: fp => parseFrac (s.data.takeWhile Char.isDigit) fp
  | _ => 1

/-- Split a character list at the first occurrence of `c`; mirrors
`string::find_first_of` + the two `substr` calls at `Request.cpp:431-434`. -/
def breakAt (c : Char) : List Char → Option (List Char × List Char)
  | [] => none
  | x :: xs =>
    if x = c then some ([], xs)
    else
      match breakAt c xs with
      | some (a, b) => some (x :: a, b)
      | none => none

/-- The token's codec name: the lower-cased token up to (excluding) the first
`;`, exactly as computed at `Request.cpp:428-434`. -/
def tokenName (tok : String) : String :=
  match breakAt ';' (strToLower tok).data with
  | some (nm, _) => String.mk nm
  | none => strToLower tok

/-- The token's explicitly given quality: present exactly when the part after
the first `;` has the shape `q=<nonempty>` (`2 < arg.length() && arg[0] ==
'q' && arg[1] == '='`, `Request.cpp:436-437`), in which case the remainder is
parsed as a double. -/
def explicitQ (tok : String) : Option ℚ :=
  match breakAt ';' (strToLower tok).data with
  | some (_, 'q' :: '=' :: c :: r) => some (parseDouble (String.mk (c :: r)))
  | _ => none

/-- The quality used for a token: the explicit one, or the default `1`
(`double q = 1;`, `Request.cpp:427`). -/
def tokenQuality (tok : String) : ℚ := (explicitQ tok).getD 1

/-- The loop state of `Request::getRequestedCompression`
(`Request.cpp:421-424`). -/
structure ScanState where
  maxQ : ℚ
  otherQ : ℚ
  named : List String
  compression : compression_t
  deriving DecidableEq, Repr

/-- One iteration of the `for` loop at `Request.cpp:426-453`.  The string
surgery (lower-case, split at `;`, recognize `q=`) is factored into
`tokenName` / `explicitQ` / `tokenQuality` above; the rest follows the source
line by line: record `otherQ` only when an explicit `q=` was parsed for `*`,
insert the name into the `named` set, tentatively select a codec when the
quality strictly beats `maxQ` (an unrecognized name gets `q = 0`), then raise
`maxQ`. -/
def scanToken (st : ScanState) (tok : String) : ScanState :=
  let name := tokenName tok
  let q := tokenQuality tok
  let otherQ := if (explicitQ tok).isSome && name == "*" then q else st.otherQ
  let named := if name ∈ st.named then st.named else name :: st.named
  let cq :=
    if st.maxQ < q then
      if name = "identity" then (compression_t.COMPRESS_NONE, q)
      else if name = "gzip" then (compression_t.COMPRESS_GZIP, q)
      else if name = "zlib" then (compression_t.COMPRESS_ZLIB, q)
      else if name = "bzip2" then (compression_t.COMPRESS_BZIP2, q)
      else (st.compression, (0 : ℚ))
    else (st.compression, q)
  let maxQ := if st.maxQ < cq.2 then cq.2 else st.maxQ
  { maxQ := maxQ, otherQ := otherQ, named := named, compression := cq.1 }

/-- The delimiters of `String::tokenize(..., ", \t")` at `Request.cpp:419`. -/
def acceptDelims : List Char := [',', ' ', '\t']

/-- Source `Request::getRequestedCompression` (`Request.cpp:415-462`).  The input is
the value of the `Accept-Encoding` request header, `none` when the header is
absent (`if (!inHas("Accept-Encoding")) return COMPRESS_NONE;`). -/
def getRequestedCompression (acceptEncoding : Option String) : compression_t :=
  match acceptEncoding with
  | none => compression_t.COMPRESS_NONE
  | some v =>
    let accept := tokenize v acceptDelims
    let st := accept.foldl scanToken ⟨0, 0, [], compression_t.COMPRESS_NONE⟩
    if st.maxQ < st.otherQ && !(st.named.contains "gzip") then
      compression_t.COMPRESS_GZIP
    else st.compression

/-- The codec map of the claim: `identity`→None, `gzip`→Gzip, `zlib`→Zlib,
`bzip2`→Bzip2, anything else unrecognized. -/
def codecOf (name : String) : Option compression_t :=
  if name = "identity" then some compression_t.COMPRESS_NONE
  else if name = "gzip" then some compression_t.COMPRESS_GZIP
  else if name = "zlib" then some compression_t.COMPRESS_ZLIB
  else if name = "bzip2" then some compression_t.COMPRESS_BZIP2
  else none

/-- One step of the scan as the claim words it: a recognized name whose
quality strictly exceeds the running maximum becomes the tentative selection
and the new maximum. -/
def specStep (p : compression_t × ℚ) (tok : String) : compression_t × ℚ :=
  match codecOf (tokenName tok) with
  | some c => if p.2 < tokenQuality tok then (c, tokenQuality tok) else p
  | none => p

/-- The scan of the claim: tentative selection plus running maximum quality. -/
def specScan (toks : List String) : compression_t × ℚ :=
  toks.foldl specStep (compression_t.COMPRESS_NONE, 0)

/-- The quality explicitly given to the wildcard token `*` (the last one, if
several); `0` when `*` never carries an explicit `q=` parameter. -/
def wildcardStep (w : ℚ) (tok : String) : ℚ :=
  match explicitQ tok with
  | some q => if tokenName tok = "*" then q else w
  | none => w

def specWildcardQ (toks : List String) : ℚ := toks.foldl wildcardStep 0

/-- The negotiation as the claim/spec words it: scan selecting any recognized
name whose quality strictly exceeds the running maximum, then override to
Gzip exactly when the wildcard's explicit quality strictly exceeds the
maximum seen and the client never named `gzip`; no header ⇒ None. -/
def specNegotiate (acceptEncoding : Option String) : compression_t :=
  match acceptEncoding with
  | none => compression_t.COMPRESS_NONE
  | some v =>
    let toks := tokenize v acceptDelims
    if (specScan toks).2 < specWildcardQ toks ∧ "gzip" ∉ toks.map tokenName then
      compression_t.COMPRESS_GZIP
    else (specScan toks).1

/-- A token that is the wildcard `*` and carries an explicitly parsed
`q=<number>` parameter. -/
def wildcardExplicit (tok : String) : Bool :=
  tokenName tok == "*" && (explicitQ tok).isSome

/-- Modelled from the spec (§2, §4.2): the transport-owned `Headers`
multimap view — order-preserving, case-insensitive keys, duplicates
permitted; `find` returns the empty string when absent, `add` appends,
`set` replaces all entries with that name, `remove` deletes them.  The
`Headers` implementation itself is not among the provided sources. -/
structure Headers where
  entries : List (String × String)
  deriving DecidableEq, Repr

def Headers.has (h : Headers) (name : String) : Bool :=
  h.entries.any (fun e => strToLower e.1 == strToLower name)

def Headers.find (h : Headers) (name : String) : String :=
  ((h.entries.find? (fun e => strToLower e.1 == strToLower name)).map
    Prod.snd).getD ""

def Headers.add (h : Headers) (name value : String) : Headers :=
  ⟨h.entries ++ [(name, value)]⟩

def Headers.remove (h : Headers) (name : String) : Headers :=
  ⟨h.entries.filter (fun e => !(strToLower e.1 == strToLower name))⟩

def Headers.set (h : Headers) (name value : String) : Headers :=
  (h.remove name).add name value

/-- Source `getContentEncoding` (`Request.cpp:91-98`); the `default: return 0;`
null-pointer case becomes `none`. -/
def getContentEncoding : compression_t → Option String
  | compression_t.COMPRESS_ZLIB => some "zlib"
  | compression_t.COMPRESS_GZIP => some "gzip"
  | compression_t.COMPRESS_BZIP2 => some "bzip2"
  | _ => none

/-- Source `Request::outSetContentEncoding` (`Request.cpp:403-412`), acting on the
output `Headers` (its only effect). -/
def outSetContentEncoding (c : compression_t) (h : Headers) : Headers :=
  match c with
  | compression_t.COMPRESS_ZLIB | compression_t.COMPRESS_GZIP
  | compression_t.COMPRESS_BZIP2 =>
    h.set "Content-Encoding" ((getContentEncoding c).getD "")
  | _ => h

/-- The mutable response-relevant state of a `Request`: the `finalized`
flag, the output header map, the output buffer, and the URI's file
extension (used by the content-type guess during `finalize`,
`Request.cpp:398-400`). -/
structure RequestState where
  finalized : Bool
  outHeaders : Headers
  outputBuffer : String
  uriExtension : String
  deriving DecidableEq, Repr

/-- Source `Request::hasContentType` (`Request.cpp:383-385`). -/
def hasContentType (s : RequestState) : Bool :=
  s.outHeaders.has "Content-Type"

/-- Source `Request::setContentType` (`Request.cpp:393-395`). -/
def setContentType (s : RequestState) (contentType : String) : RequestState :=
  { s with outHeaders := s.outHeaders.set "Content-Type" contentType }

/-- Source `Request::guessContentType` (`Request.cpp:398-400`).  The extension →
content-type table lives in `Headers::guessContentType`, which is not among
the provided sources; modelled from the spec (§4.2 "a
`guessContentType(extension)` fallback driven by the URI's file extension")
as an arbitrary table `guess` passed explicitly. -/
def guessContentType (guess : String → String) (s : RequestState) :
    RequestState :=
  setContentType s (guess s.uriExtension)

/-- Source `Request::finalize` (`Request.cpp:771-780`): throw when already
finalized, set the flag, fill in a guessed content type when none was set. -/
def finalize (guess : String → String) (s : RequestState) :
    Except String RequestState :=
  if s.finalized then Except.error "Request already finalized"
  else
    Except.ok
      (if hasContentType { s with finalized := true } then
        { s with finalized := true }
      else guessContentType guess { s with finalized := true })

/-- Source `Request::resetOutput` (`Request.cpp:208-211`). -/
def resetOutput (s : RequestState) : Except String RequestState :=
  if s.finalized then
    Except.error "Cannot reset output after Request has been finalized"
  else Except.ok { s with outputBuffer := "" }

/-- A call into the libevent transport layer. -/
inductive TransportOp where
  | sendErrorOp : Nat → TransportOp
  | sendReplyOp : Nat → TransportOp
  | replyStartOp : Nat → TransportOp
  | replyChunkOp : String → TransportOp
  | replyEndOp : TransportOp
  deriving DecidableEq, Repr

def HTTP_INTERNAL_SERVER_ERROR : Nat := 500

/-- Source `Request::sendError(int)` (`Request.cpp:621-624`): `finalize()` throws
before `evhttp_send_error` runs when already finalized. -/
def sendError (guess : String → String) (code : Nat) (s : RequestState) :
    Except String (RequestState × List TransportOp) :=
  match finalize guess s with
  | Except.error e => Except.error e
  | Except.ok s =>
    Except.ok (s, [TransportOp.sendErrorOp
      (if code = 0 then HTTP_INTERNAL_SERVER_ERROR else code)])

/-- Source `Request::reply(int)` (`Request.cpp:665-669`): `finalize()` then
`evhttp_send_reply`. -/
def reply (guess : String → String) (code : Nat) (s : RequestState) :
    Except String (RequestState × List TransportOp) :=
  match finalize guess s with
  | Except.error e => Except.error e
  | Except.ok s => Except.ok (s, [TransportOp.sendReplyOp code])

/-- Source `Request::startChunked` (`Request.cpp:696-699`): calls
`evhttp_send_reply_start` directly — no `finalized` check, no `finalize`. -/
def startChunked (code : Nat) (s : RequestState) :
    Except String (RequestState × List TransportOp) :=
  Except.ok (s, [TransportOp.replyStartOp code])

/-- Source `Request::sendChunk` (`Request.cpp:702-704`): calls
`evhttp_send_reply_chunk` directly — no `finalized` check. -/
def sendChunk (data : String) (s : RequestState) :
    Except String (RequestState × List TransportOp) :=
  Except.ok (s, [TransportOp.replyChunkOp data])

/-- Source `Request::endChunked` (`Request.cpp:727-730`): `finalize()` then
`evhttp_send_reply_end`. -/
def endChunked (guess : String → String) (s : RequestState) :
    Except String (RequestState × List TransportOp) :=
  match finalize guess s with
  | Except.error e => Except.error e
  | Except.ok s => Except.ok (s, [TransportOp.replyEndOp])

/-- A concrete already-finalized request state. -/
def finalizedExample : RequestState :=
  { finalized := true, outHeaders := ⟨[]⟩, outputBuffer := "",
    uriExtension := "" }

/-- The shape of the stream `compressBufferStream` builds
(`Request.cpp:72-88`): the `default:` case returns the plain buffer stream
(`target`), every other case wraps it in the matching compressing filter. -/
inductive StreamKind where
  | direct
  | zlibFiltered
  | gzipFiltered
  | bzip2Filtered
  deriving DecidableEq, Repr

def compressBufferStream (c : compression_t) : StreamKind :=
  match c with
  | compression_t.COMPRESS_ZLIB => StreamKind.zlibFiltered
  | compression_t.COMPRESS_GZIP => StreamKind.gzipFiltered
  | compression_t.COMPRESS_BZIP2 => StreamKind.bzip2Filtered
  | _ => StreamKind.direct

/-- The `JSONWriter` constructor (`Request.cpp:101-110`): build the
(possibly compressing) stream over the output buffer and set the
Content-Encoding response header for the chosen codec. -/
def mkJSONWriter (c : compression_t) (s : RequestState) :
    StreamKind × RequestState :=
  (compressBufferStream c,
    { s with outHeaders := outSetContentEncoding c s.outHeaders })

/-- Source `Request::getJSONPWriter` (`Request.cpp:586-604`): reset the output,
set the content type, construct the writer with `COMPRESS_NONE`, and write
the literal `callback(` prefix into the (direct) stream. -/
def getJSONPWriter (callback : String) (s : RequestState) :
    Except String (StreamKind × RequestState) :=
  match resetOutput s with
  | Except.error e => Except.error e
  | Except.ok s1 =>
    let w := mkJSONWriter compression_t.COMPRESS_NONE
      (setContentType s1 "application/javascript")
    Except.ok (w.1,
      { w.2 with outputBuffer := w.2.outputBuffer ++ callback ++ "(" })

/-- Source `Request::getJSONChunkWriter` (`Request.cpp:715-724`): directly
constructs a `JSONWriter` with `COMPRESS_NONE` (no reset, no content
type). -/
def getJSONChunkWriter (s : RequestState) : StreamKind × RequestState :=
  mkJSONWriter compression_t.COMPRESS_NONE s

/-- Source `Request::getOutputStream` (`Request.cpp:612-618`): resolve
`COMPRESS_AUTO` through content negotiation, set the Content-Encoding
header, return the (possibly compressing) stream over the output buffer. -/
def getOutputStream (acceptEncoding : Option String) (c : compression_t)
    (s : RequestState) : StreamKind × RequestState :=
  let c1 := if c = compression_t.COMPRESS_AUTO then
    getRequestedCompression acceptEncoding else c
  (compressBufferStream c1,
    { s with outHeaders := outSetContentEncoding c1 s.outHeaders })

/-- The delimiters of `String::tokenize(..., "; \t\n\r")` at
`Request.cpp:469,482`. -/
def cookieDelims : List Char := [';', ' ', '\t', '\n', '\r']

/-- Whether `name` equals a cookie token's name part
(`name == cookies[i].substr(0, cookies[i].find('='))`,
`Request.cpp:472,487`): everything before the first `=`, or the whole token
when it has no `=`. -/
def cookieMatches (name tok : String) : Bool :=
  match breakAt '=' tok.data with
  | some (nm, _) => name == String.mk nm
  | none => name == tok

/-- The value `findCookie` returns for a matching token (`Request.cpp:488`):
the part after the first `=`, or empty when the token has no `=`. -/
def cookieValue (tok : String) : String :=
  match breakAt '=' tok.data with
  | some (_, rest) => String.mk rest
  | none => ""

/-- The scan of `Request::findCookie` (`Request.cpp:484-489`): the value of
the first matching token. -/
def findCookieIn (name : String) : List String → String
  | [] => ""
  | t :: ts =>
    if cookieMatches name t then cookieValue t else findCookieIn name ts

/-- Source `Request::hasCookie` (`Request.cpp:465-475`); the input is the `Cookie`
header value, `none` when the header is absent. -/
def hasCookie (cookieHeader : Option String) (name : String) : Bool :=
  match cookieHeader with
  | none => false
  | some h => (tokenize h cookieDelims).any (fun t => cookieMatches name t)

/-- Source `Request::findCookie` (`Request.cpp:478-493`). -/
def findCookie (cookieHeader : Option String) (name : String) : String :=
  match cookieHeader with
  | none => ""
  | some h => findCookieIn name (tokenize h cookieDelims)

/-- Modelled from the spec: `Request::insertArg` / JSON dict insertion
(`cbang/json`, not among the provided sources) — §3 "insertion order: JSON
first, then query — last write wins on key collision": an existing key's
value is replaced in place, a new key is appended. -/
def dictInsert :
    List (String × String) → String → String → List (String × String)
  | [], k, v => [(k, v)]
  | (k1, v1) :: rest, k, v =>
    if k1 = k then (k1, v) :: rest else (k1, v1) :: dictInsert rest k v

def insertAll (args ps : List (String × String)) : List (String × String) :=
  ps.foldl (fun a p => dictInsert a p.1 p.2) args

/-- Modelled from the spec: cbang `String::startsWith` (not among the
provided sources), used by `parseJSONArgs` for the content-type test. -/
def startsWithM (s pre : String) : Bool :=
  s.data.take pre.data.length == pre.data

/-- Source `Request::parseJSONArgs` (`Request.cpp:214-235`).  The input buffer's
JSON text is represented already decoded (JSON decoding is the external
`cbang/json` library): `body = some pairs` when the buffer is nonempty and
parses as a JSON dict with those key/value pairs, `none` otherwise. -/
def parseJSONArgs (contentType : Option String)
    (body : Option (List (String × String)))
    (args : List (String × String)) : List (String × String) :=
  match contentType with
  | some ct =>
    if startsWithM ct "application/json" then
      match body with
      | some ps => insertAll args ps
      | none => args
    else args
  | none => args

/-- Source `Request::parseQueryArgs` (`Request.cpp:238-243`): insert every query
parameter in order. -/
def parseQueryArgs (query : List (String × String))
    (args : List (String × String)) : List (String × String) :=
  insertAll args query

/-- Source `Request::parseArgs` (`Request.cpp:246-250`): JSON args first, then
query args, starting from the empty args dict. -/
def parseArgs (contentType : Option String)
    (body : Option (List (String × String)))
    (query : List (String × String)) : List (String × String) :=
  parseQueryArgs query (parseJSONArgs contentType body [])

/-- First-match lookup in an association list (dict lookup: keys are unique
by construction of `dictInsert`). -/
def dlookup : List (String × String) → String → Option String
  | [], _ => none
  | (k1, v) :: rest, k => if k1 = k then some v else dlookup rest k

/-- The last value bound to `k` in an insertion sequence. -/
def lastVal : List (String × String) → String → Option String
  | [], _ => none
  | p :: ps, k =>
    match lastVal ps k with
    | some v => some v
    | none => if p.1 = k then some p.2 else none

/-- The peer address as `Connection::getPeer` assembles it. -/
structure IPAddress where
  ip : Nat
  port : Nat
  deriving DecidableEq, Repr

def AF_INET : Nat := 2

/-- The `sockaddr` returned by `evhttp_connection_get_addr`, viewed through
the fields `Connection::getPeer` reads. -/
structure SockAddr where
  sa_family : Nat
  sin_ip : Nat
  sin_port : Nat
  deriving DecidableEq, Repr

/-- Source `Connection::getPeer` (`Connection.cpp:136-151`): start from the
transport-reported peer when present (`evhttp_connection_get_peer`), then
overwrite port and IP with the raw socket address
(`evhttp_connection_get_addr`) whenever it is present and IPv4. -/
def getPeer (peerAddr : Option IPAddress) (sockAddr : Option SockAddr) :
    IPAddress :=
  let peer := match peerAddr with
    | some a => a
    | none => { ip := 0, port := 0 }
  match sockAddr with
  | some sa =>
    if sa.sa_family = AF_INET then
      { peer with port := sa.sin_port, ip := sa.sin_ip }
    else peer
  | none => peer

/-- A concrete open request state, for exercising the writer factories. -/
def openExample : RequestState :=
  { finalized := false, outHeaders := ⟨[]⟩, outputBuffer := "x",
    uriExtension := "" }

/-- The result `getJSONPWriter "f"` produces from `openExample`. -/
def jsonpResult : StreamKind × RequestState :=
  (StreamKind.direct,
    { finalized := false,
      outHeaders := ⟨[("Content-Type", "application/javascript")]⟩,
      outputBuffer := "f(", uriExtension := "" })

theorem parseFrac_nonneg (ip fp : List Char) : 0 ≤ parseFrac ip fp := by
  unfold parseFrac
  split
  · exact Rat.mkRat_nonneg (by positivity) _
  · norm_num

theorem parseDouble_nonneg (s : String) : 0 ≤ parseDouble s := by
  unfold parseDouble
  split
  · split <;> positivity
  · exact parseFrac_nonneg _ _
  · norm_num

theorem tokenQuality_nonneg (tok : String) : 0 ≤ tokenQuality tok := by
  unfold tokenQuality
  cases h : explicitQ tok with
  | none => simp [Option.getD]
  | some q =>
    simp only [Option.getD]
    unfold explicitQ at h
    split at h
    · cases h; exact parseDouble_nonneg _
    · cases h

theorem scanToken_fields (st : ScanState) (tok : String) (h : 0 ≤ st.maxQ) :
    (scanToken st tok).compression = (specStep (st.compression, st.maxQ) tok).1 ∧
    (scanToken st tok).maxQ = (specStep (st.compression, st.maxQ) tok).2 ∧
    (scanToken st tok).otherQ = wildcardStep st.otherQ tok ∧
    (∀ x, x ∈ (scanToken st tok).named ↔ x = tokenName tok ∨ x ∈ st.named) := by
  have hq := tokenQuality_nonneg tok
  unfold scanToken specStep wildcardStep
  refine ⟨?_, ?_, ?_, ?_⟩
  · simp only [codecOf]
    split_ifs <;> simp_all
  · simp only [codecOf]
    split_ifs <;> simp_all
    linarith
  · cases hx : explicitQ tok with
    | none => simp [hx]
    | some q =>
      simp only [hx, Option.isSome_some, Bool.true_and, tokenQuality, Option.getD]
      by_cases hn : tokenName tok = "*" <;> simp [hn]
  · intro x
    dsimp only
    split_ifs with hmem <;> simp_all

theorem fold_inv (toks : List String) (st : ScanState) (h : 0 ≤ st.maxQ) :
    (toks.foldl scanToken st).compression =
      (toks.foldl specStep (st.compression, st.maxQ)).1 ∧
    (toks.foldl scanToken st).maxQ =
      (toks.foldl specStep (st.compression, st.maxQ)).2 ∧
    (toks.foldl scanToken st).otherQ = toks.foldl wildcardStep st.otherQ ∧
    (∀ x, x ∈ (toks.foldl scanToken st).named ↔
      x ∈ toks.map tokenName ∨ x ∈ st.named) := by
  induction toks generalizing st with
  | nil => simp
  | cons t ts ih =>
    obtain ⟨h1, h2, h3, h4⟩ := scanToken_fields st t h
    have hnn : 0 ≤ (scanToken st t).maxQ := by
      rw [h2]
      unfold specStep
      have hq := tokenQuality_nonneg t
      split
      · split
        · exact hq
        · exact h
      · exact h
    obtain ⟨g1, g2, g3, g4⟩ := ih (scanToken st t) hnn
    have hpair : ((scanToken st t).compression, (scanToken st t).maxQ) =
        specStep (st.compression, st.maxQ) t := by
      rw [h1, h2]
    refine ⟨?_, ?_, ?_, ?_⟩
    · simpa [hpair] using g1
    · simpa [hpair] using g2
    · simpa [h3] using g3
    · intro x
      simp only [List.foldl_cons, List.map_cons, List.mem_cons]
      rw [g4 x, h4 x]
      tauto

theorem contains_iff_mem (l : List String) (x : String) :
    l.contains x = true ↔ x ∈ l := by
  simpa [List.contains] using List.elem_iff

theorem fold_inv_init (toks : List String) :
    (toks.foldl scanToken ⟨0, 0, [], compression_t.COMPRESS_NONE⟩).compression =
      (specScan toks).1 ∧
    (toks.foldl scanToken ⟨0, 0, [], compression_t.COMPRESS_NONE⟩).maxQ =
      (specScan toks).2 ∧
    (toks.foldl scanToken ⟨0, 0, [], compression_t.COMPRESS_NONE⟩).otherQ =
      specWildcardQ toks ∧
    (∀ x, x ∈ (toks.foldl scanToken ⟨0, 0, [], compression_t.COMPRESS_NONE⟩).named ↔
      x ∈ toks.map tokenName) := by
  obtain ⟨h1, h2, h3, h4⟩ :=
    fold_inv toks ⟨0, 0, [], compression_t.COMPRESS_NONE⟩ (le_refl 0)
  refine ⟨h1, h2, h3, fun x => ?_⟩
  rw [h4 x]
  simp

theorem negotiate_eq (h : Option String) :
    getRequestedCompression h = specNegotiate h := by
  cases h with
  | none => rfl
  | some v =>
    unfold getRequestedCompression specNegotiate
    simp only
    obtain ⟨h1, h2, h3, h4⟩ := fold_inv_init (tokenize v acceptDelims)
    set st := (tokenize v acceptDelims).foldl scanToken
      ⟨0, 0, [], compression_t.COMPRESS_NONE⟩ with hst
    have hcond : (st.maxQ < st.otherQ && !(st.named.contains "gzip")) = true ↔
        ((specScan (tokenize v acceptDelims)).2 <
          specWildcardQ (tokenize v acceptDelims) ∧
          "gzip" ∉ (tokenize v acceptDelims).map tokenName) := by
      rw [Bool.and_eq_true, decide_eq_true_eq, Bool.not_eq_true']
      constructor
      · rintro ⟨ha, hb⟩
        refine ⟨by rw [← h2, ← h3]; exact ha, ?_⟩
        intro hmem
        have hgz : "gzip" ∈ st.named := (h4 "gzip").mpr hmem
        rw [← contains_iff_mem] at hgz
        rw [hgz] at hb
        cases hb
      · rintro ⟨ha, hb⟩
        refine ⟨by rw [h2, h3]; exact ha, ?_⟩
        by_contra hc
        rw [Bool.not_eq_false, contains_iff_mem] at hc
        exact hb ((h4 "gzip").mp hc)
    by_cases hc : (st.maxQ < st.otherQ && !(st.named.contains "gzip")) = true
    · rw [if_pos hc, if_pos (hcond.mp hc)]
    · rw [if_neg hc, if_neg (fun hp => hc (hcond.mpr hp))]
      exact h1

/-- C1: for every Accept-Encoding header value, `getRequestedCompression`
scans the comma-separated tokens selecting the codec of any recognized name
(identity, gzip, zlib, bzip2) whose quality strictly exceeds the running
maximum, then overrides the selection to Gzip exactly when the quality
explicitly given to `*` strictly exceeds the maximum seen and the client
never named `gzip` (this is `specNegotiate`); an absent header yields
`COMPRESS_NONE`. -/
theorem c1_negotiation_matches_spec (h : Option String) :
    getRequestedCompression h = specNegotiate h ∧
    getRequestedCompression none = compression_t.COMPRESS_NONE :=
  ⟨negotiate_eq h, rfl⟩

/-- C2 counterexample: on the header value `gzip;q=0.1, *;q=0.9` the code
does NOT return `COMPRESS_NONE` (it returns `COMPRESS_GZIP`: the ordinary
scan tentatively selects gzip because 0.1 beats the initial maximum 0, and
nothing ever deselects it). -/
theorem c2_counterexample :
    getRequestedCompression (some "gzip;q=0.1, *;q=0.9") ≠
      compression_t.COMPRESS_NONE := by
  decide

/-- C2 amended: on `gzip;q=0.1, *;q=0.9` the result is Gzip, selected by the
plain scan itself (third conjunct); the wildcard override indeed does not
apply, since `gzip` was named explicitly (second conjunct), but that only
leaves the scan's selection — Gzip — in place, rather than identity/None. -/
theorem c2_amended_gzip_wins_scan :
    getRequestedCompression (some "gzip;q=0.1, *;q=0.9") =
      compression_t.COMPRESS_GZIP ∧
    "gzip" ∈ (tokenize "gzip;q=0.1, *;q=0.9" acceptDelims).map tokenName ∧
    (specScan (tokenize "gzip;q=0.1, *;q=0.9" acceptDelims)).1 =
      compression_t.COMPRESS_GZIP :=
  ⟨by decide, by decide, by decide⟩

theorem foldl_specStep_snd_nonneg (toks : List String) (p : compression_t × ℚ)
    (h : 0 ≤ p.2) : 0 ≤ (toks.foldl specStep p).2 := by
  induction toks generalizing p with
  | nil => exact h
  | cons t ts ih =>
    apply ih
    unfold specStep
    have hq := tokenQuality_nonneg t
    split
    · split
      · exact hq
      · exact h
    · exact h

theorem foldl_wildcardStep_const (toks : List String) (w : ℚ)
    (h : ∀ t ∈ toks, wildcardExplicit t = false) :
    toks.foldl wildcardStep w = w := by
  induction toks generalizing w with
  | nil => rfl
  | cons t ts ih =>
    have ht := h t (by simp)
    have hstep : wildcardStep w t = w := by
      unfold wildcardStep
      unfold wildcardExplicit at ht
      cases hx : explicitQ t with
      | none => rfl
      | some q =>
        rw [hx] at ht
        simp only [Option.isSome_some, Bool.and_true, beq_eq_false_iff_ne,
          ne_eq] at ht
        simp [ht]
    rw [List.foldl_cons, hstep]
    exact ih w (fun t' ht' => h t' (by simp [ht']))

/-- C9: when the wildcard `*` appears in Accept-Encoding but no token is a
wildcard carrying an explicit `q=<number>` parameter, the wildcard override
never fires — the result is exactly the plain scan's selection — because
`otherQ` is recorded only while parsing an explicit `q` parameter; in
particular the header value `*` alone yields `COMPRESS_NONE`. -/
theorem c9_wildcard_needs_explicit_q (s : String)
    (h1 : "*" ∈ (tokenize s acceptDelims).map tokenName)
    (h2 : ∀ t ∈ tokenize s acceptDelims, wildcardExplicit t = false) :
    getRequestedCompression (some s) = (specScan (tokenize s acceptDelims)).1 ∧
    getRequestedCompression (some "*") = compression_t.COMPRESS_NONE := by
  constructor
  · have hw : specWildcardQ (tokenize s acceptDelims) = 0 :=
      foldl_wildcardStep_const _ 0 h2
    have hn : 0 ≤ (specScan (tokenize s acceptDelims)).2 :=
      foldl_specStep_snd_nonneg _ _ (le_refl 0)
    rw [negotiate_eq]
    unfold specNegotiate
    simp only
    rw [hw, if_neg (fun hp => absurd hp.1 (not_lt.mpr hn))]
  · decide

theorem find_aux_set (l : List (String × String)) (n v : String) :
    ((((l.filter (fun e => !(strToLower e.1 == strToLower n))) ++
        [(n, v)]).find? (fun e => strToLower e.1 == strToLower n)).map
      Prod.snd).getD "" = v := by
  induction l with
  | nil => simp
  | cons e es ih =>
    by_cases hp : (strToLower e.1 == strToLower n) = true
    · simpa [List.filter_cons, hp] using ih
    · simp only [List.filter_cons, Bool.not_eq_true] at *
      rw [hp]
      simpa [List.find?, hp] using ih

/-- Setting a header and then finding the same name returns the value just
set. -/
theorem Headers.find_set (h : Headers) (n v : String) :
    (h.set n v).find n = v := by
  unfold Headers.set Headers.add Headers.remove Headers.find
  exact find_aux_set h.entries n v

/-- Setting a header leaves `find` unchanged on any name of different
(case-folded) spelling. -/
theorem Headers.find_set_ne (h : Headers) (n v m : String)
    (hne : strToLower m ≠ strToLower n) :
    (h.set n v).find m = h.find m := by
  unfold Headers.set Headers.add Headers.remove Headers.find
  induction h.entries with
  | nil =>
    have : strToLower n ≠ strToLower m := fun hc => hne hc.symm
    simp [this]
  | cons e es ih =>
    by_cases hm : (strToLower e.1 == strToLower m) = true
    · have hp : ¬(strToLower e.1 == strToLower n) = true := by
        intro hc
        exact hne (by rw [← (beq_iff_eq.mp hm), (beq_iff_eq.mp hc)])
      simp [List.filter_cons, hp, List.find?, hm]
    · by_cases hp : (strToLower e.1 == strToLower n) = true
      · simpa [List.filter_cons, hp, List.find?, hm] using ih
      · simp only [List.filter_cons, Bool.not_eq_true] at *
        rw [hp]
        simpa [List.find?, hm, hp] using ih

/-- Witness for C9 at the concrete header value `*`. -/
theorem c9_witness :
    ("*" ∈ (tokenize "*" acceptDelims).map tokenName) ∧
    (∀ t ∈ tokenize "*" acceptDelims, wildcardExplicit t = false) ∧
    (getRequestedCompression (some "*") =
      (specScan (tokenize "*" acceptDelims)).1 ∧
     getRequestedCompression (some "*") = compression_t.COMPRESS_NONE) :=
  ⟨by decide, by decide, c9_wildcard_needs_explicit_q "*" (by decide) (by decide)⟩

/-- C3 counterexample: on an already-finalized request, `startChunked` and
`sendChunk` do NOT fail with a state error — each succeeds and forwards a
send to the transport. -/
theorem c3_counterexample :
    startChunked 200 finalizedExample =
      Except.ok (finalizedExample, [TransportOp.replyStartOp 200]) ∧
    sendChunk "a" finalizedExample =
      Except.ok (finalizedExample, [TransportOp.replyChunkOp "a"]) :=
  ⟨rfl, rfl⟩

/-- C3 amended: on a finalized request, `sendError`, `reply` and
`endChunked` fail with the state error and perform no transport send (the
error result carries no transport operations), while `startChunked` and
`sendChunk` perform no finalized check at all and send unconditionally. -/
theorem c3_amended_finalized_blocks (guess : String → String)
    (s : RequestState) (code : Nat) (data : String)
    (h : s.finalized = true) :
    sendError guess code s = Except.error "Request already finalized" ∧
    reply guess code s = Except.error "Request already finalized" ∧
    endChunked guess s = Except.error "Request already finalized" ∧
    startChunked code s = Except.ok (s, [TransportOp.replyStartOp code]) ∧
    sendChunk data s = Except.ok (s, [TransportOp.replyChunkOp data]) := by
  unfold sendError reply endChunked startChunked sendChunk finalize
  rw [h]
  simp

/-- Witness for the amended C3 at a concrete finalized state. -/
theorem c3_witness :
    finalizedExample.finalized = true ∧
    (sendError (fun x => x) 200 finalizedExample =
      Except.error "Request already finalized" ∧
     reply (fun x => x) 200 finalizedExample =
      Except.error "Request already finalized" ∧
     endChunked (fun x => x) finalizedExample =
      Except.error "Request already finalized" ∧
     startChunked 200 finalizedExample =
      Except.ok (finalizedExample, [TransportOp.replyStartOp 200]) ∧
     sendChunk "a" finalizedExample =
      Except.ok (finalizedExample, [TransportOp.replyChunkOp "a"])) :=
  ⟨rfl, c3_amended_finalized_blocks (fun x => x) finalizedExample 200 "a" rfl⟩

/-- C4: when `finalize` succeeds it sets the `finalized` flag, a second
`finalize` on the result fails with the state error, and — when no content
type was explicitly set — the successful call filled in the content type
guessed from the URI's file extension (when one was set, the headers are
untouched). -/
theorem c4_finalize_once (guess : String → String) (s s1 : RequestState)
    (h : finalize guess s = Except.ok s1) :
    s1.finalized = true ∧
    finalize guess s1 = Except.error "Request already finalized" ∧
    (hasContentType s = false →
      s1.outHeaders.find "Content-Type" = guess s.uriExtension) ∧
    (hasContentType s = true → s1.outHeaders = s.outHeaders) := by
  unfold finalize at h
  by_cases hf : s.finalized
  · rw [if_pos hf] at h
    cases h
  · rw [if_neg hf] at h
    injection h with h
    have hct : hasContentType { s with finalized := true } = hasContentType s :=
      rfl
    by_cases hc : hasContentType s
    · rw [hct, if_pos hc] at h
      subst h
      refine ⟨rfl, by simp [finalize], ?_, fun _ => rfl⟩
      intro hcc
      rw [hc] at hcc
      cases hcc
    · rw [hct, if_neg hc] at h
      subst h
      refine ⟨rfl, by simp [finalize, guessContentType, setContentType], ?_, ?_⟩
      · intro _
        exact Headers.find_set _ _ _
      · intro hcc
        exact absurd hcc hc

/-- Witness for C4 at a concrete open request with no content type. -/
theorem c4_witness :
    finalize (fun e => "text/html")
      { finalized := false, outHeaders := ⟨[]⟩, outputBuffer := "",
        uriExtension := "html" } =
      Except.ok
        { finalized := true,
          outHeaders := ⟨[("Content-Type", "text/html")]⟩,
          outputBuffer := "", uriExtension := "html" } ∧
    ({ finalized := true,
       outHeaders := ⟨[("Content-Type", "text/html")]⟩,
       outputBuffer := "", uriExtension := "html" } : RequestState).finalized
        = true ∧
    finalize (fun e => "text/html")
      { finalized := true,
        outHeaders := ⟨[("Content-Type", "text/html")]⟩,
        outputBuffer := "", uriExtension := "html" } =
      Except.error "Request already finalized" ∧
    (hasContentType
      { finalized := false, outHeaders := ⟨[]⟩, outputBuffer := "",
        uriExtension := "html" } = false →
      ({ finalized := true,
         outHeaders := ⟨[("Content-Type", "text/html")]⟩,
         outputBuffer := "", uriExtension := "html" } :
          RequestState).outHeaders.find "Content-Type" =
        (fun e => "text/html")
          ({ finalized := false, outHeaders := ⟨[]⟩, outputBuffer := "",
             uriExtension := "html" } : RequestState).uriExtension) ∧
    (hasContentType
      { finalized := false, outHeaders := ⟨[]⟩, outputBuffer := "",
        uriExtension := "html" } = true →
      ({ finalized := true,
         outHeaders := ⟨[("Content-Type", "text/html")]⟩,
         outputBuffer := "", uriExtension := "html" } :
          RequestState).outHeaders =
        ({ finalized := false, outHeaders := ⟨[]⟩, outputBuffer := "",
           uriExtension := "html" } : RequestState).outHeaders) :=
  ⟨rfl, c4_finalize_once (fun e => "text/html") _ _ rfl⟩

/-- C5: cookie lookup scans the tokenized `Cookie` header line and the first
matching token wins (tokens before the first match never contribute); on
`a=1; b=2; a=3`: `findCookie "a" = "1"`, `hasCookie "b"`, not
`hasCookie "c"`. -/
theorem c5_cookie_first_match (name : String) (pre rest : List String)
    (h : ∀ t ∈ pre, cookieMatches name t = false) :
    findCookieIn name (pre ++ rest) = findCookieIn name rest ∧
    findCookie (some "a=1; b=2; a=3") "a" = "1" ∧
    hasCookie (some "a=1; b=2; a=3") "b" = true ∧
    hasCookie (some "a=1; b=2; a=3") "c" = false := by
  refine ⟨?_, by decide, by decide, by decide⟩
  induction pre with
  | nil => rfl
  | cons t ts ih =>
    have ht := h t (by simp)
    have hstep : findCookieIn name (t :: (ts ++ rest)) =
        if cookieMatches name t then cookieValue t
        else findCookieIn name (ts ++ rest) := rfl
    rw [List.cons_append, hstep, ht]
    simp only [Bool.false_eq_true, if_false]
    exact ih (fun u hu => h u (by simp [hu]))

/-- Witness for C5: concrete prefix `["b=2"]` (no match for `a`) before the
matching token. -/
theorem c5_witness :
    (∀ t ∈ ["b=2"], cookieMatches "a" t = false) ∧
    (findCookieIn "a" (["b=2"] ++ ["a=3"]) = findCookieIn "a" ["a=3"] ∧
     findCookie (some "a=1; b=2; a=3") "a" = "1" ∧
     hasCookie (some "a=1; b=2; a=3") "b" = true ∧
     hasCookie (some "a=1; b=2; a=3") "c" = false) :=
  ⟨by decide, c5_cookie_first_match "a" ["b=2"] ["a=3"] (by decide)⟩

theorem dlookup_dictInsert_self (a : List (String × String)) (k v : String) :
    dlookup (dictInsert a k v) k = some v := by
  induction a with
  | nil => simp [dictInsert, dlookup]
  | cons p ps ih =>
    obtain ⟨k1, v1⟩ := p
    by_cases hk : k1 = k
    · simp [dictInsert, hk, dlookup]
    · simp [dictInsert, hk, dlookup, ih]

theorem dlookup_dictInsert_ne (a : List (String × String)) (k v m : String)
    (h : k ≠ m) : dlookup (dictInsert a k v) m = dlookup a m := by
  induction a with
  | nil => simp [dictInsert, dlookup, h]
  | cons p ps ih =>
    obtain ⟨k1, v1⟩ := p
    by_cases hk : k1 = k
    · subst hk
      simp [dictInsert, dlookup, h, ih]
    · simp [dictInsert, hk, dlookup, ih]

theorem dlookup_insertAll (ps args : List (String × String)) (k : String) :
    dlookup (insertAll args ps) k =
      match lastVal ps k with
      | some v => some v
      | none => dlookup args k := by
  induction ps generalizing args with
  | nil => rfl
  | cons p ps ih =>
    rw [insertAll, List.foldl_cons, ← insertAll, ih]
    cases hl : lastVal ps k with
    | some v => simp [lastVal, hl]
    | none =>
      simp only [lastVal, hl]
      by_cases hk : p.1 = k
      · rw [hk]
        simp [dlookup_dictInsert_self, hk]
      · simp [hk, dlookup_dictInsert_ne _ _ _ _ hk]

/-- C6: `parseArgs` inserts the JSON-object body's keys first and the query
parameters second, so on a key collision the query value wins: the merged
lookup is the last query binding when the key occurs in the query, else the
last JSON binding; concretely, JSON `{"x":1}` plus query `?x=2&y=3` yields
`{x: 2, y: 3}`. -/
theorem c6_args_merge (body query : List (String × String)) (k : String) :
    dlookup (parseArgs (some "application/json") (some body) query) k =
      (match lastVal query k with
       | some v => some v
       | none => lastVal body k) ∧
    parseArgs (some "application/json") (some [("x", "1")])
      [("x", "2"), ("y", "3")] = [("x", "2"), ("y", "3")] := by
  constructor
  · have hred : parseArgs (some "application/json") (some body) query =
        insertAll (insertAll [] body) query := rfl
    rw [hred, dlookup_insertAll, dlookup_insertAll]
    cases hq : lastVal query k with
    | some v => rfl
    | none =>
      simp only
      cases hb : lastVal body k with
      | some v => rfl
      | none => rfl
  · decide

/-- C7 counterexample: with both a transport-reported peer (ip 1, port 1)
and an IPv4 raw socket address (ip 2, port 2) available, `getPeer` returns
the socket address, not the transport-reported peer — so the claimed
"only when that is unavailable" fallback direction is false. -/
theorem c7_counterexample :
    getPeer (some ⟨1, 1⟩) (some ⟨AF_INET, 2, 2⟩) = ⟨2, 2⟩ ∧
    getPeer (some ⟨1, 1⟩) (some ⟨AF_INET, 2, 2⟩) ≠ ⟨1, 1⟩ :=
  ⟨rfl, by decide⟩

/-- C7 amended: `getPeer` starts from the transport-reported peer, but then
overwrites IP and port with the raw socket address whenever that is present
and IPv4 — the socket address takes precedence; the transport-reported peer
survives only when the socket address is absent or non-IPv4, and the zero
address results when neither source is usable. -/
theorem c7_amended_socket_precedence (q : Option IPAddress) (p : IPAddress)
    (sa sb : SockAddr) (h : sa.sa_family = AF_INET)
    (h2 : sb.sa_family ≠ AF_INET) :
    getPeer q (some sa) = ⟨sa.sin_ip, sa.sin_port⟩ ∧
    getPeer (some p) (some sb) = p ∧
    getPeer (some p) none = p ∧
    getPeer none (some sb) = ⟨0, 0⟩ ∧
    getPeer none none = ⟨0, 0⟩ := by
  refine ⟨?_, ?_, rfl, ?_, rfl⟩
  · cases q <;> simp [getPeer, h]
  · simp [getPeer, h2]
  · simp [getPeer, h2]

/-- Witness for the amended C7 at concrete addresses. -/
theorem c7_witness :
    (⟨2, 5, 6⟩ : SockAddr).sa_family = AF_INET ∧
    (⟨0, 7, 8⟩ : SockAddr).sa_family ≠ AF_INET ∧
    (getPeer (some ⟨1, 1⟩) (some ⟨2, 5, 6⟩) = ⟨5, 6⟩ ∧
     getPeer (some ⟨3, 4⟩) (some ⟨0, 7, 8⟩) = ⟨3, 4⟩ ∧
     getPeer (some ⟨3, 4⟩) none = ⟨3, 4⟩ ∧
     getPeer none (some ⟨0, 7, 8⟩) = ⟨0, 0⟩ ∧
     getPeer none none = ⟨0, 0⟩) :=
  ⟨rfl, by decide,
    c7_amended_socket_precedence (some ⟨1, 1⟩) ⟨3, 4⟩ ⟨2, 5, 6⟩ ⟨0, 7, 8⟩
      rfl (by decide)⟩

/-- C8: requesting an output stream sets the Content-Encoding response
header to exactly `zlib`, `gzip`, or `bzip2` for the Zlib, Gzip and Bzip2
codecs, and leaves the headers entirely untouched for None. -/
theorem c8_content_encoding (h : Headers) :
    (outSetContentEncoding compression_t.COMPRESS_ZLIB h).find
      "Content-Encoding" = "zlib" ∧
    (outSetContentEncoding compression_t.COMPRESS_GZIP h).find
      "Content-Encoding" = "gzip" ∧
    (outSetContentEncoding compression_t.COMPRESS_BZIP2 h).find
      "Content-Encoding" = "bzip2" ∧
    outSetContentEncoding compression_t.COMPRESS_NONE h = h ∧
    getContentEncoding compression_t.COMPRESS_ZLIB = some "zlib" ∧
    getContentEncoding compression_t.COMPRESS_GZIP = some "gzip" ∧
    getContentEncoding compression_t.COMPRESS_BZIP2 = some "bzip2" ∧
    getContentEncoding compression_t.COMPRESS_NONE = none :=
  ⟨Headers.find_set h _ _, Headers.find_set h _ _, Headers.find_set h _ _,
    rfl, rfl, rfl, rfl, rfl⟩

/-- C10: the JSONP writer and the chunked JSON writer always construct
their stream with `COMPRESS_NONE`: the stream is the direct pass-through
(never a compressing filter) and the Content-Encoding header is not
touched. -/
theorem c10_writers_uncompressed (s : RequestState) (cb : String)
    (r : StreamKind × RequestState)
    (h : getJSONPWriter cb s = Except.ok r) :
    (getJSONChunkWriter s).1 = StreamKind.direct ∧
    (getJSONChunkWriter s).2.outHeaders = s.outHeaders ∧
    r.1 = StreamKind.direct ∧
    r.2.outHeaders.find "Content-Encoding" =
      s.outHeaders.find "Content-Encoding" := by
  refine ⟨rfl, rfl, ?_, ?_⟩ <;>
  · unfold getJSONPWriter resetOutput at h
    by_cases hf : s.finalized
    · rw [if_pos hf] at h
      cases h
    · rw [if_neg hf] at h
      simp only [mkJSONWriter, compressBufferStream, outSetContentEncoding,
        setContentType] at h
      injection h with h
      subst h
      first
        | rfl
        | exact Headers.find_set_ne _ _ _ _ (by decide)

/-- Witness for C10 at a concrete open request. -/
theorem c10_witness :
    getJSONPWriter "f" openExample = Except.ok jsonpResult ∧
    ((getJSONChunkWriter openExample).1 = StreamKind.direct ∧
     (getJSONChunkWriter openExample).2.outHeaders = openExample.outHeaders ∧
     jsonpResult.1 = StreamKind.direct ∧
     jsonpResult.2.outHeaders.find "Content-Encoding" =
       openExample.outHeaders.find "Content-Encoding") :=
  ⟨rfl, c10_writers_uncompressed openExample "f" jsonpResult rfl⟩
